import Mathlib

/-!
Verification of the dead-man's-switch core of the igrisai_mcp repository.

The development shallowly embeds the TypeScript source:

* `CronScheduler` (`scheduleDeadHandCheck` / `cancelDeadHandCheck` /
  `getJobByUserAddress`, the `setTimeout`-based variant) as a state machine
  on explicit job/task lists;
* the `/initiate-deadhand` route and `resetDeadHandTimer` /
  `handleDeadHandCheck` of `DeadHandServer` (`deadHandServer.ts`);
* the activity oracle (`executeDeadHandCheck`,
  `checkTwitterActivityFromHypergraph`, `determineActivityFromAIResponse`);
* the sweep planner (`executeDeadHandSwitch`, `isGasToken`,
  `encodeERC20Approve` of `LifiDeadHandService`);
* the WebSocket payload serializer `serializeBigInts`.

External collaborators (database, MCP client, Hypergraph, LiFi) are passed in
as explicit environments (`Option` / `Except` values or functions), a thrown
exception being modelled by `Except.error` / `none`.  Logging and WebSocket
broadcasts are pure effects with no influence on the values computed here and
are dropped.  JavaScript strings are modelled by `String` (`toLowerCase` by
the ASCII lowering `jsToLower`), JS `Map` insertion-order semantics by
association lists with replace-in-place update, and `bigint` by `Int`/`Nat`.
-/

namespace IgrisDeadHand

/-! ## JavaScript string helpers -/

/-- `pat.isPrefixOf l`-based substring search: JS `String.prototype.includes`
on the underlying character lists.  The empty needle is found everywhere. -/
def includesList (pat : List Char) : List Char → Bool
  | [] => pat.isEmpty
  | c :: rest => pat.isPrefixOf (c :: rest) || includesList pat rest

/-- JS `haystack.includes(needle)`. -/
def jsIncludes (haystack needle : String) : Bool :=
  includesList needle.data haystack.data

/-- ASCII case lowering of one character, as JS `toLowerCase` acts on the
ASCII fragment. -/
def jsCharToLower (c : Char) : Char :=
  if c.isUpper then Char.ofNat (c.toNat + 32) else c

/-- JS `s.toLowerCase()` on the ASCII fragment. -/
def jsToLower (s : String) : String :=
  String.mk (s.data.map jsCharToLower)

/-- JS `a || b` on strings: the empty string is falsy. -/
def jsOrStr (a b : String) : String :=
  if a = "" then b else a

/-- JS `a || b` where `a` is a possibly-absent string (`x?.y || b`):
`undefined` and the empty string are falsy. -/
def jsOrOptStr (a : Option String) (b : String) : String :=
  match a with
  | some s => jsOrStr s b
  | none => b

/-! ## `determineActivityFromAIResponse` (deadHandServer.ts, lines 437-482)

A pure keyword classifier over the AI's free-text answer: no-activity
indicators are scanned first and win over activity indicators. -/

/-- Source list `activityIndicators`. -/
def activityIndicators : List String :=
  ["transfer found", "transaction found", "activity found",
   "transfers identified", "transactions identified",
   "received", "sent", "transfer", "transaction"]

/-- Source list `noActivityIndicators`. -/
def noActivityIndicators : List String :=
  ["no transfer", "no transaction", "no activity",
   "0 transfer", "0 transaction", "no results", "no data"]

/-- `determineActivityFromAIResponse(aiResponse)`: falsy (empty) input is
`false`; otherwise the lowercased response is scanned for no-activity
indicators (returning `false` on the first hit) and then for activity
indicators (returning `true` on the first hit); the default is `false`. -/
def determineActivityFromAIResponse (aiResponse : String) : Bool :=
  if aiResponse = "" then false
  else
    let response := jsToLower aiResponse
    if noActivityIndicators.any (fun pat => jsIncludes response pat) then false
    else if activityIndicators.any (fun pat => jsIncludes response pat) then true
    else false

/-! ## `serializeBigInts` (deadHandServer.ts, lines 759-781)

The recursive WebSocket-payload cleaner: JSON-like JavaScript values with
`bigint` leaves.  JS numbers are atoms to this function and are modelled by an
opaque integer carrier; functions and symbols (also untouched) are not
modelled. -/

/-- A finite JavaScript value as handled by `serializeBigInts`. -/
inductive JsValue where
  | jsNull
  | jsUndefined
  | jsBool (b : Bool)
  | jsNum (n : Int)
  | jsStr (s : String)
  | jsBigInt (n : Int)
  | jsArr (elems : List JsValue)
  | jsObj (fields : List (String × JsValue))
deriving Repr

mutual

/-- `serializeBigInts(obj)`: `null`/`undefined` unchanged; a `bigint` becomes
its decimal string (`obj.toString()`); arrays map element-wise
(`obj.map(...)`); objects rebuild every entry (`Object.entries` loop); all
other values fall through unchanged. -/
def serializeBigInts : JsValue → JsValue
  | .jsNull => .jsNull
  | .jsUndefined => .jsUndefined
  | .jsBigInt n => .jsStr (toString n)
  | .jsArr l => .jsArr (serializeArray l)
  | .jsObj kvs => .jsObj (serializeEntries kvs)
  | .jsBool b => .jsBool b
  | .jsNum n => .jsNum n
  | .jsStr s => .jsStr s

/-- `obj.map(item => this.serializeBigInts(item))`. -/
def serializeArray : List JsValue → List JsValue
  | [] => []
  | v :: rest => serializeBigInts v :: serializeArray rest

/-- The `for (const [key, value] of Object.entries(obj))` loop:
`result[key] = this.serializeBigInts(value)`. -/
def serializeEntries : List (String × JsValue) → List (String × JsValue)
  | [] => []
  | (k, v) :: rest => (k, serializeBigInts v) :: serializeEntries rest

end

mutual

/-- No `bigint` occurs anywhere in the value. -/
def noBigInt : JsValue → Bool
  | .jsBigInt _ => false
  | .jsArr l => noBigIntArray l
  | .jsObj kvs => noBigIntEntries kvs
  | _ => true

/-- No `bigint` occurs in any element of the list. -/
def noBigIntArray : List JsValue → Bool
  | [] => true
  | v :: rest => noBigInt v && noBigIntArray rest

/-- No `bigint` occurs in any entry value. -/
def noBigIntEntries : List (String × JsValue) → Bool
  | [] => true
  | (_, v) :: rest => noBigInt v && noBigIntEntries rest

end

/-- The keys of an object value (other values have none). -/
def keysOf : JsValue → List String
  | .jsObj kvs => kvs.map Prod.fst
  | _ => []

/-! ## The activity oracle (deadHandServer.ts, lines 279-432)

`executeDeadHandCheck` queries the MCP client for on-chain evidence and the
Hypergraph client for Twitter evidence.  Both collaborators are passed in as
explicit outcomes: a thrown exception is `Except.error`.  The Hypergraph
collaborator is a function of the hour window the source computes.  Timestamps
and WebSocket broadcasts are effects with no influence on the returned values
and are dropped. -/

/-- The fields of an MCP `executeUserPrompt` result that the check reads
(`toolUsed` only feeds a broadcast; `parameters?.finalResponse` is modelled in
its string form). -/
structure McpResult where
  toolUsed : String
  reasoning : String
  finalResponse : Option String
deriving Repr, DecidableEq

/-- The delegation row read from the database (fields the check uses). -/
structure Delegation where
  beneficiaryAddress : String
  kernelClient : String
  timeout : Nat
deriving Repr, DecidableEq

/-- `DeadHandCheckResult` without its constant `type` tag and wall-clock
`timestamp`. -/
structure DeadHandCheckResult where
  userAddress : String
  aiResponse : String
  transactionData : List String
  activityFound : Bool
deriving Repr, DecidableEq

/-- `checkTwitterActivityFromHypergraph(userAddress, timeoutSeconds)`: rounds
the window up to whole hours (`Math.ceil(timeoutSeconds / 3600)`), queries
`hasRecentTwitterActivity`, and resolves any thrown error to `false`. -/
def checkTwitterActivityFromHypergraph (timeoutSeconds : Nat)
    (social : Nat → Except String Bool) : Bool :=
  match social ((timeoutSeconds + 3599) / 3600) with
  | .ok b => b
  | .error _ => false

/-- `executeDeadHandCheck(userAddress, timeoutSeconds)`.  When the MCP call
returns, on-chain activity is classified from `result.reasoning`, Twitter
activity is read from Hypergraph, and the two are OR-combined; when the MCP
call throws, the catch block returns the error result with
`activityFound: false` (the Twitter check is never reached). -/
def executeDeadHandCheck (userAddress : String) (timeoutSeconds : Nat)
    (mcp : Except String McpResult) (social : Nat → Except String Bool) :
    DeadHandCheckResult :=
  match mcp with
  | .error _ =>
      { userAddress := userAddress
        aiResponse := "Error occurred while checking transactions"
        transactionData := []
        activityFound := false }
  | .ok result =>
      let transactionData :=
        jsOrOptStr result.finalResponse (jsOrStr result.reasoning "No transaction data available")
      let activityFound := determineActivityFromAIResponse result.reasoning
      let twitterActivityFound := checkTwitterActivityFromHypergraph timeoutSeconds social
      let combinedActivityFound := activityFound || twitterActivityFound
      { userAddress := userAddress
        aiResponse := jsOrStr result.reasoning "Checking Graph token MCP for information"
        transactionData := [transactionData]
        activityFound := combinedActivityFound }

/-- How one fire of the check-and-trigger cycle ends in
`handleDeadHandCheck`. -/
inductive CheckOutcome where
  | noDelegation
  | timerReset
  | switchTriggered
deriving Repr, DecidableEq

/-- `handleDeadHandCheck(userAddress)`: re-reads the delegation, runs the
check, and either triggers the switch (no activity) or resets the timer
(activity).  `triggerDeadHandSwitch` and `resetDeadHandTimer` catch their own
errors, so the cycle always ends in one of these outcomes once a delegation
exists. -/
def handleDeadHandCheck (userAddress : String) (delegation : Option Delegation)
    (mcp : Except String McpResult) (social : Nat → Except String Bool) :
    CheckOutcome :=
  match delegation with
  | none => .noDelegation
  | some d =>
      if (executeDeadHandCheck userAddress d.timeout mcp social).activityFound then
        .timerReset
      else
        .switchTriggered

/-! ## The scheduler (cronScheduler.ts, `setTimeout` variant) and its routes

`CronScheduler` keeps two insertion-ordered maps, `jobs : Map jobId CronJob`
and `scheduledTasks : Map jobId timeoutId`; both are modelled as lists (the
task map by its key list, since the stored `timeoutId` is only ever passed to
`clearTimeout`).  The `setTimeout` handler is an `async` closure with an
`await` inside, so between the moment a timer fires and the moment the
handler's tail (`job.isExecuted = true; this.cleanupJob(jobId)`) runs, the
Node event loop can run other handlers (HTTP cancel, resets).  The state
therefore also tracks `firing`: the ids whose timeout handler has started but
whose tail has not yet run.  One fire is two transitions, `fireStart` (the
timer triggers, the callback begins) and `fireEnd` (the callback finishes —
normally or by throwing — and the tail runs; the `try` and `catch` branches
perform the same mutations). -/

/-- `CronJob` (types/deadHand.ts); `scheduledAt` in epoch milliseconds. -/
structure CronJob where
  id : String
  userAddress : String
  scheduledAt : Nat
  timeoutSeconds : Nat
  isExecuted : Bool
deriving Repr, DecidableEq

/-- The scheduler's mutable state plus the set of in-flight callbacks. -/
structure SchedulerState where
  jobs : List CronJob
  tasks : List String
  firing : List String
deriving Repr, DecidableEq

/-- A freshly constructed `CronScheduler`. -/
def emptyScheduler : SchedulerState := ⟨[], [], []⟩

/-- `` `deadhand_${userAddress}_${Date.now()}` ``. -/
def mkJobId (userAddress : String) (now : Nat) : String :=
  "deadhand_" ++ userAddress ++ "_" ++ toString now

/-- The pointwise replacement a JS `Map.set` performs on an existing key. -/
def replaceJob (j k : CronJob) : CronJob :=
  if k.id == j.id then j else k

/-- JS `Map.set` keyed by `id`: replace in place, else append. -/
def setJob (j : CronJob) (l : List CronJob) : List CronJob :=
  if l.any (fun k => k.id == j.id) then l.map (replaceJob j)
  else l ++ [j]

/-- JS `Map.set` on the task map, viewed through its key list. -/
def setTask (jobId : String) (tasks : List String) : List String :=
  if tasks.contains jobId then tasks else tasks ++ [jobId]

/-- `scheduleDeadHandCheck(userAddress, timeoutSeconds, callback)` at wall
clock `now`: records the job, installs the timer, returns the job id. -/
def scheduleDeadHandCheck (now : Nat) (userAddress : String) (timeoutSeconds : Nat)
    (s : SchedulerState) : SchedulerState × String :=
  let jobId := mkJobId userAddress now
  let job : CronJob :=
    { id := jobId
      userAddress := userAddress
      scheduledAt := now + timeoutSeconds * 1000
      timeoutSeconds := timeoutSeconds
      isExecuted := false }
  (⟨setJob job s.jobs, setTask jobId s.tasks, s.firing⟩, jobId)

/-- `cancelDeadHandCheck(jobId)`: if a timer entry exists, clear it, drop both
map entries and return `true`; otherwise return `false`.  A callback already
in flight is unaffected (`clearTimeout` cannot stop it). -/
def cancelDeadHandCheck (jobId : String) (s : SchedulerState) : SchedulerState × Bool :=
  if s.tasks.contains jobId then
    (⟨s.jobs.filter (fun k => !(k.id == jobId)),
      s.tasks.filter (fun t => !(t == jobId)),
      s.firing⟩, true)
  else (s, false)

/-- `getJobByUserAddress(userAddress)`: first non-executed job of that user in
insertion order. -/
def getJobByUserAddress (userAddress : String) (s : SchedulerState) : Option CronJob :=
  s.jobs.find? (fun j => j.userAddress == userAddress && !j.isExecuted)

/-- `getJob(jobId)`. -/
def getJob (jobId : String) (s : SchedulerState) : Option CronJob :=
  s.jobs.find? (fun j => j.id == jobId)

/-- The timer for `jobId` triggers and its callback begins.  Possible only
while the timer entry is live (not cleared by a cancel) and the callback is
not already running. -/
def fireStart (jobId : String) (s : SchedulerState) : SchedulerState :=
  if s.tasks.contains jobId && !(s.firing.contains jobId) then
    { s with firing := s.firing ++ [jobId] }
  else s

/-- `cleanupJob(jobId)`: clear the timer entry if present, drop the job. -/
def cleanupJob (jobId : String) (s : SchedulerState) : SchedulerState :=
  ⟨s.jobs.filter (fun k => !(k.id == jobId)),
   s.tasks.filter (fun t => !(t == jobId)),
   s.firing⟩

/-- The in-flight callback for `jobId` finishes and the handler tail runs:
`job.isExecuted = true; this.cleanupJob(jobId)`.  `ok` records whether the
awaited callback returned or threw; the `try` and `catch` branches of the
source mutate the state identically. -/
def fireEnd (ok : Bool) (jobId : String) (s : SchedulerState) : SchedulerState :=
  if s.firing.contains jobId then
    let marked : SchedulerState :=
      { s with jobs := s.jobs.map (fun k =>
          if k.id == jobId then { k with isExecuted := true } else k) }
    let cleaned := cleanupJob jobId marked
    { cleaned with firing := s.firing.filter (fun t => !(t == jobId)) }
  else s

/-- `^0x[a-fA-F0-9]{40}$`, the route's address validation. -/
def isValidEthAddress (s : String) : Bool :=
  s.data.length == 42 && "0x".data.isPrefixOf s.data &&
    (s.data.drop 2).all (fun c => c.isDigit || ('a' ≤ c && c ≤ 'f') || ('A' ≤ c && c ≤ 'F'))

/-- The HTTP responses of `POST /initiate-deadhand` that matter here. -/
inductive ArmStatus where
  | invalidAddress
  | invalidFormat
  | notFound
  | alreadyArmed
  | scheduled (jobId : String)
deriving Repr, DecidableEq

/-- The `/initiate-deadhand` route (deadHandServer.ts, lines 79-162): validate
the address, read the delegation, reject with 409 when
`getJobByUserAddress` finds an active job (`AlreadyArmed`), otherwise
schedule.  The fire-and-forget Twitter sync touches no scheduler state and is
dropped. -/
def initiateDeadHand (now : Nat) (userAddress : String)
    (delegation : Option Delegation) (s : SchedulerState) :
    ArmStatus × SchedulerState :=
  if userAddress == "" then (.invalidAddress, s)
  else if !(isValidEthAddress userAddress) then (.invalidFormat, s)
  else
    match delegation with
    | none => (.notFound, s)
    | some d =>
        match getJobByUserAddress userAddress s with
        | some _ => (.alreadyArmed, s)
        | none =>
            let res := scheduleDeadHandCheck now userAddress d.timeout s
            (.scheduled res.2, res.1)

/-- `resetDeadHandTimer(userAddress, timeoutSeconds)` (deadHandServer.ts,
lines 605-630): cancel the user's active job if any, then schedule afresh. -/
def resetDeadHandTimer (now : Nat) (userAddress : String) (timeoutSeconds : Nat)
    (s : SchedulerState) : SchedulerState :=
  let s1 :=
    match getJobByUserAddress userAddress s with
    | some existing => (cancelDeadHandCheck existing.id s).1
    | none => s
  (scheduleDeadHandCheck now userAddress timeoutSeconds s1).1

/-- The operations that touch scheduler state, as event-loop turns: the arm
route, the cancel route (`DELETE /jobs/:jobId`), the two halves of a timer
fire, and the timer reset issued from inside a fire callback. -/
inductive SwitchEvent where
  | armE (now : Nat) (userAddress : String) (delegation : Option Delegation)
  | cancelE (jobId : String)
  | fireStartE (jobId : String)
  | fireEndE (ok : Bool) (jobId : String)
  | resetE (now : Nat) (userAddress : String) (timeoutSeconds : Nat)
deriving Repr, DecidableEq

/-- One event-loop turn. -/
def stepEvent : SwitchEvent → SchedulerState → SchedulerState
  | .armE now u deleg, s => (initiateDeadHand now u deleg s).2
  | .cancelE jid, s => (cancelDeadHandCheck jid s).1
  | .fireStartE jid, s => fireStart jid s
  | .fireEndE ok jid, s => fireEnd ok jid s
  | .resetE now u t, s => resetDeadHandTimer now u t s

/-- A whole execution. -/
def runEvents (es : List SwitchEvent) (s : SchedulerState) : SchedulerState :=
  es.foldl (fun st e => stepEvent e st) s

/-- The user's jobs that are not yet executed. -/
def activeJobsFor (userAddress : String) (s : SchedulerState) : List CronJob :=
  s.jobs.filter (fun j => j.userAddress == userAddress && !j.isExecuted)

/-- The scheduler's data invariant: every stored job is non-executed (the
executed flag and the map removal are set in the same synchronous tail), job
ids and user addresses are duplicate-free, and the job map and the task map
hold exactly the same ids. -/
def SchedulerInv (s : SchedulerState) : Prop :=
  (∀ j ∈ s.jobs, j.isExecuted = false)
  ∧ (s.jobs.map (fun j => j.id)).Nodup
  ∧ (s.jobs.map (fun j => j.userAddress)).Nodup
  ∧ (∀ jid ∈ s.tasks, ∃ j ∈ s.jobs, j.id = jid)
  ∧ (∀ j ∈ s.jobs, j.id ∈ s.tasks)

/-! ## The sweep planner (`LifiDeadHandService.executeDeadHandSwitch`)

The planner turns the token balances of a triggered user into an ordered list
of transactions for the user to sign.  The LiFi quote collaborator
(`getBridgeQuote`) is the environment `env : BalanceEntry → Option BridgeQuote`;
`none` models a thrown quote request, which both call sites catch, skipping
that token and continuing.  The source carries balances as decimal strings;
they are modelled numerically (`BigInt(amount)` / the amount passed through to
the quote). -/

/-- `Token` (types/lifi.ts); `chain?.chainId` is optional there. -/
structure Token where
  address : String
  chainId : Option Nat
  decimals : Nat
  tokenId : String
deriving Repr, DecidableEq

/-- One entry of the `tokenBalances` array handed to the planner. -/
structure BalanceEntry where
  token : Token
  balance : Nat
  chainId : Nat
deriving Repr, DecidableEq

/-- `quote.transactionRequest` as read by the planner (`value` may be
absent: `BigInt(tr.value || '0')`). -/
structure QuoteTx where
  toAddr : String
  value : Option Nat
  data : String
deriving Repr, DecidableEq

/-- The fields of a LiFi quote the planner reads. -/
structure BridgeQuote where
  approvalAddress : Option String
  transactionRequest : Option QuoteTx
deriving Repr, DecidableEq

/-- `TransactionRequest` (types/lifi.ts) as pushed into `allTransactions`. -/
structure TransactionRequest where
  toAddr : String
  value : Nat
  data : String
deriving Repr, DecidableEq

/-- `TransactionResult` (types/lifi.ts), the legacy result shape. -/
structure TransactionResult where
  hash : String
  success : Bool
  error : Option String
deriving Repr, DecidableEq

/-- `getTargetToken()`: "pyUSDC on Arbitrum" — the address in the source is
the zero address. -/
def getTargetToken : Token :=
  { address := "0x0000000000000000000000000000000000000000"
    chainId := some 42161
    decimals := 6
    tokenId := "pyusdc-arbitrum" }

/-- The allow-list inside `isGasToken`: zero address, the `0xeeee…` native
sentinel, and the MATIC precompile on Polygon. -/
def gasTokenAddresses : List String :=
  ["0x0000000000000000000000000000000000000000",
   "0xeeeeeeeeeeeeeeeeeeeeeeeeeeeeeeeeeeeeeeee",
   "0x0000000000000000000000000000000000001010"]

/-- `isGasToken(tokenAddress)`: membership of the lowercased address in the
allow-list. -/
def isGasToken (tokenAddress : String) : Bool :=
  gasTokenAddresses.contains (jsToLower tokenAddress)

/-- The hard-coded fallback spender used when the quote carries no
`approvalAddress`. -/
def defaultApprovalAddress : String := "0x1231DEB6f5749EF6cE6943a275A1D3E7486F4EaE"

/-- JS `padStart(64, '0')`. -/
def padStart64 (s : String) : String :=
  String.mk (List.replicate (64 - s.length) '0') ++ s

/-- `BigInt(amount).toString(16)` on the modelled numeric amount: lowercase
hex digits. -/
def natToHex (n : Nat) : String :=
  String.mk (Nat.toDigits 16 n)

/-- `encodeERC20Approve(spender, amount)`: the `approve(address,uint256)`
selector, the spender without its `0x` prefix zero-padded to 32 bytes, and
the amount in hex zero-padded to 32 bytes. -/
def encodeERC20Approve (spender : String) (amount : Nat) : String :=
  "0x095ea7b3" ++ padStart64 (spender.drop 2) ++ padStart64 (natToHex amount)

/-- The approval transaction pushed for a non-gas token:
`{to: token.address, value: 0, data: approve(spender, balance)}` with
`spender = quote.approvalAddress || default`. -/
def mkApprovalTx (e : BalanceEntry) (q : BridgeQuote) : TransactionRequest :=
  { toAddr := e.token.address
    value := 0
    data := encodeERC20Approve (jsOrOptStr q.approvalAddress defaultApprovalAddress) e.balance }

/-- A quote's transaction as pushed: `value: BigInt(tr.value || '0')`. -/
def mkQuoteTx (tr : QuoteTx) : TransactionRequest :=
  { toAddr := tr.toAddr, value := tr.value.getD 0, data := tr.data }

/-- The emission block the source duplicates verbatim in its Polygon and
Arbitrum branches: an approval unless the token is a gas token, then the
quote's transaction when the quote carries one. -/
def emitForQuote (e : BalanceEntry) (q : BridgeQuote) : List TransactionRequest :=
  (if isGasToken e.token.address then [] else [mkApprovalTx e q])
    ++ (match q.transactionRequest with
        | some tr => [mkQuoteTx tr]
        | none => [])

/-- The loop body of `executeDeadHandSwitch` for one `(token, balance,
chainId)` entry: Polygon tokens are bridged (quote failure ⇒ skip and
continue), chains other than Polygon/Arbitrum are skipped, an Arbitrum token
equal to the target token (case-insensitive address comparison) is skipped,
and any other Arbitrum token is swapped (quote failure ⇒ caught by the
per-token catch, skip and continue). -/
def processTokenEntry (env : BalanceEntry → Option BridgeQuote)
    (e : BalanceEntry) : List TransactionRequest :=
  if e.chainId = 137 then
    match env e with
    | none => []
    | some q => emitForQuote e q
  else if e.chainId ≠ 42161 then []
  else if jsToLower e.token.address = jsToLower getTargetToken.address then []
  else
    match env e with
    | none => []
    | some q => emitForQuote e q

/-- Everything `allTransactions` accumulates over the loop. -/
def planTransactions (env : BalanceEntry → Option BridgeQuote)
    (tokenBalances : List BalanceEntry) : List TransactionRequest :=
  tokenBalances.flatMap (processTokenEntry env)

/-- The two result shapes of `executeDeadHandSwitch`: the legacy
`TransactionResult[]` (only ever the empty list, when there is nothing to
bridge) and the prepared-transactions bundle. -/
inductive SwitchResult where
  | completed (results : List TransactionResult)
  | prepared (transactions : List TransactionRequest) (message : String)
      (requiresUserAction : Bool) (chainId : Nat) (chainName : String) (rpcUrl : String)
deriving Repr, DecidableEq

/-- `executeDeadHandSwitch(userAddress, beneficiaryAddress, kernelClient,
tokenBalances)`: run the loop; with no transactions return the legacy empty
list, otherwise return the bundle for the user to sign. -/
def executeDeadHandSwitch (userAddress beneficiaryAddress kernelClient : String)
    (env : BalanceEntry → Option BridgeQuote)
    (tokenBalances : List BalanceEntry) : SwitchResult :=
  let allTransactions := planTransactions env tokenBalances
  if allTransactions.isEmpty then .completed []
  else
    .prepared allTransactions
      ("Dead hand switch prepared " ++ toString allTransactions.length
        ++ " transactions. Please sign and execute these transactions to complete the bridge.")
      true 137 "Polygon" "https://polygon-rpc.com"

/-! ## Concrete instances used by witnesses and counterexamples -/

instance decSchedulerInv (s : SchedulerState) : Decidable (SchedulerInv s) := by
  unfold SchedulerInv
  infer_instance

def sampleUser : String := "0xaaaaaaaaaaaaaaaaaaaaaaaaaaaaaaaaaaaaaaaa"

def sampleDelegation : Delegation :=
  ⟨"0xbbbbbbbbbbbbbbbbbbbbbbbbbbbbbbbbbbbbbbbb",
   "0xcccccccccccccccccccccccccccccccccccccccc", 60⟩

def sampleArmed : SchedulerState := (scheduleDeadHandCheck 0 sampleUser 60 emptyScheduler).1

def sampleJob : CronJob := ⟨mkJobId sampleUser 0, sampleUser, 60000, 60, false⟩

/-- A non-gas ERC-20 on Polygon. -/
def sampleDai : Token :=
  ⟨"0x8f3cf7ad23cd3cadbd9735aff958023239c6a063", some 137, 18, "dai-matic"⟩

/-- A non-gas ERC-20 on Arbitrum. -/
def sampleUsdcArb : Token :=
  ⟨"0x3333333333333333333333333333333333333333", some 42161, 6, "usdc-arbitrum-one"⟩

def sampleEntry : BalanceEntry := ⟨sampleDai, 1000, 137⟩

def sampleEntryArb : BalanceEntry := ⟨sampleUsdcArb, 250, 42161⟩

/-- A Polygon token for which the quote collaborator will fail. -/
def sampleEntryFail : BalanceEntry :=
  ⟨⟨"0x4444444444444444444444444444444444444444", some 137, 18, "weird-matic"⟩, 7, 137⟩

/-- The target token itself held on the target chain. -/
def sampleEntryTarget : BalanceEntry := ⟨getTargetToken, 500, 42161⟩

def sampleQuote : BridgeQuote :=
  ⟨some "0x1111111111111111111111111111111111111111",
   some ⟨"0x2222222222222222222222222222222222222222", some 5, "0xcafebabe"⟩⟩

/-- A quote environment that always answers. -/
def sampleEnv : BalanceEntry → Option BridgeQuote := fun _ => some sampleQuote

/-- A quote environment that fails exactly on `sampleEntryFail`'s token. -/
def sampleEnvFail : BalanceEntry → Option BridgeQuote := fun e =>
  if e.token.tokenId == "weird-matic" then none else some sampleQuote

/-- The `0xeeee…` gas sentinel written in mixed case. -/
def gasSentinelMixedCase : String := "0xEeeeeEEEEeeeEEeeEEeEeEEEeeEeeEEEeEeeeEeE"


/-! ## Lemmas about `serializeBigInts` -/

theorem serializeArray_eq_map (l : List JsValue) :
    serializeArray l = l.map serializeBigInts := by
  induction l with
  | nil => rfl
  | cons v rest ih => simp [serializeArray, ih]

theorem serializeEntries_eq_map (kvs : List (String × JsValue)) :
    serializeEntries kvs = kvs.map fun p => (p.1, serializeBigInts p.2) := by
  induction kvs with
  | nil => rfl
  | cons p rest ih => cases p; simp [serializeEntries, ih]

/-- Structural induction for `JsValue` with element-wise hypotheses at arrays
and objects. -/
theorem JsValue.myrec {P : JsValue → Prop}
    (h1 : P .jsNull) (h2 : P .jsUndefined) (h3 : ∀ b, P (.jsBool b))
    (h4 : ∀ n, P (.jsNum n)) (h5 : ∀ s, P (.jsStr s)) (h6 : ∀ n, P (.jsBigInt n))
    (h7 : ∀ l, (∀ v ∈ l, P v) → P (.jsArr l))
    (h8 : ∀ kvs, (∀ p ∈ kvs, P p.2) → P (.jsObj kvs)) : ∀ v, P v
  | .jsNull => h1
  | .jsUndefined => h2
  | .jsBool b => h3 b
  | .jsNum n => h4 n
  | .jsStr s => h5 s
  | .jsBigInt n => h6 n
  | .jsArr l => h7 l (fun v hv =>
      have : sizeOf v < 1 + sizeOf l := by
        have := List.sizeOf_lt_of_mem hv; omega
      JsValue.myrec h1 h2 h3 h4 h5 h6 h7 h8 v)
  | .jsObj kvs => h8 kvs (fun p hp =>
      have : sizeOf p.2 < 1 + sizeOf kvs := by
        have h := List.sizeOf_lt_of_mem hp
        have h' : sizeOf p.2 < sizeOf p := by cases p; simp
        omega
      JsValue.myrec h1 h2 h3 h4 h5 h6 h7 h8 p.2)
termination_by v => sizeOf v

theorem noBigInt_serialize (v : JsValue) : noBigInt (serializeBigInts v) = true := by
  induction v using JsValue.myrec with
  | h1 => rfl
  | h2 => rfl
  | h3 b => rfl
  | h4 n => rfl
  | h5 s => rfl
  | h6 n => rfl
  | h7 l ih =>
      rw [serializeBigInts, noBigInt]
      induction l with
      | nil => rfl
      | cons v rest ihl =>
          rw [serializeArray, noBigIntArray]
          simp only [Bool.and_eq_true]
          exact ⟨ih v (by simp), ihl (fun u hu => ih u (by simp [hu]))⟩
  | h8 kvs ih =>
      rw [serializeBigInts, noBigInt]
      induction kvs with
      | nil => rfl
      | cons p rest ihl =>
          obtain ⟨k, v⟩ := p
          rw [serializeEntries, noBigIntEntries]
          simp only [Bool.and_eq_true]
          exact ⟨ih (k, v) (by simp), ihl (fun u hu => ih u (by simp [hu]))⟩

theorem serializeBigInts_idem (v : JsValue) :
    serializeBigInts (serializeBigInts v) = serializeBigInts v := by
  induction v using JsValue.myrec with
  | h1 => rfl
  | h2 => rfl
  | h3 b => rfl
  | h4 n => rfl
  | h5 s => rfl
  | h6 n => rfl
  | h7 l ih =>
      simp only [serializeBigInts, serializeArray_eq_map, List.map_map, JsValue.jsArr.injEq]
      exact List.map_congr_left (fun v hv => ih v hv)
  | h8 kvs ih =>
      simp only [serializeBigInts, serializeEntries_eq_map, List.map_map, JsValue.jsObj.injEq]
      exact List.map_congr_left (fun p hp => by simp [Function.comp, ih p hp])

/-! ## Lemmas about the scheduler state machine -/

theorem replaceJob_id (j k : CronJob) : (replaceJob j k).id = k.id := by
  unfold replaceJob
  split
  · next h => rw [beq_iff_eq] at h; rw [h]
  · rfl

theorem replaceJob_of_ne (j k : CronJob) (h : k.id ≠ j.id) : replaceJob j k = k := by
  unfold replaceJob
  simp [h]

theorem active_filter_le_one (u : String) (l : List CronJob)
    (husers : (l.map (fun j => j.userAddress)).Nodup) :
    (l.filter (fun j => j.userAddress == u && !j.isExecuted)).length ≤ 1 := by
  induction l with
  | nil => simp
  | cons k rest ih =>
      simp only [List.map_cons, List.nodup_cons] at husers
      rw [List.filter_cons]
      by_cases hk : (k.userAddress == u && !k.isExecuted) = true
      · rw [if_pos hk]
        have hku : k.userAddress = u := by
          have h1 := (Bool.and_eq_true _ _).mp hk
          exact beq_iff_eq.mp h1.1
        have hrest : rest.filter (fun j => j.userAddress == u && !j.isExecuted) = [] := by
          rw [List.filter_eq_nil]
          intro m hm
          have hmu : m.userAddress ≠ u := by
            intro he
            apply husers.1
            rw [hku, ← he]
            exact List.mem_map_of_mem (fun j => j.userAddress) hm
          simp [hmu]
        simp [hrest]
      · rw [if_neg hk]
        exact ih husers.2


theorem no_user_of_find_none (u : String) (s : SchedulerState)
    (hexec : ∀ j ∈ s.jobs, j.isExecuted = false)
    (h : getJobByUserAddress u s = none) :
    ∀ k ∈ s.jobs, k.userAddress ≠ u := by
  intro k hk he
  have h1 := List.find?_eq_none.mp h k hk
  simp [hexec k hk, he] at h1

theorem nodup_map_filter (f : CronJob → String) (p : CronJob → Bool) (l : List CronJob)
    (h : (l.map f).Nodup) : ((l.filter p).map f).Nodup :=
  h.sublist ((List.filter_sublist l).map f)

theorem inv_of_eq (s1 s2 : SchedulerState) (hj : s1.jobs = s2.jobs)
    (ht : s1.tasks = s2.tasks) (h : SchedulerInv s1) : SchedulerInv s2 := by
  unfold SchedulerInv at h ⊢
  rw [← hj, ← ht]
  exact h

theorem inv_filter_out (jid : String) (s : SchedulerState) (hInv : SchedulerInv s) :
    SchedulerInv ⟨s.jobs.filter (fun k => !(k.id == jid)),
                  s.tasks.filter (fun t => !(t == jid)), s.firing⟩ := by
  obtain ⟨h1, h2, h3, h4, h5⟩ := hInv
  refine ⟨?_, ?_, ?_, ?_, ?_⟩
  · intro j hj
    exact h1 j (List.mem_of_mem_filter hj)
  · exact nodup_map_filter _ _ _ h2
  · exact nodup_map_filter _ _ _ h3
  · intro t ht
    have ht' := List.mem_of_mem_filter ht
    have hne := List.of_mem_filter ht
    obtain ⟨j, hj, hje⟩ := h4 t ht'
    refine ⟨j, List.mem_filter.mpr ⟨hj, ?_⟩, hje⟩
    simpa [hje] using hne
  · intro j hj
    obtain ⟨hjm, hjp⟩ := List.mem_filter.mp hj
    exact List.mem_filter.mpr ⟨h5 j hjm, hjp⟩

theorem inv_cancel (jid : String) (s : SchedulerState) (hInv : SchedulerInv s) :
    SchedulerInv (cancelDeadHandCheck jid s).1 := by
  unfold cancelDeadHandCheck
  split
  · exact inv_filter_out jid s hInv
  · exact hInv

theorem inv_fireStart (jid : String) (s : SchedulerState) (hInv : SchedulerInv s) :
    SchedulerInv (fireStart jid s) := by
  unfold fireStart
  split
  · exact inv_of_eq s _ rfl rfl hInv
  · exact hInv

theorem filter_map_same {α : Type} (f : α → α) (p : α → Bool)
    (hp : ∀ a, p (f a) = p a) (hid : ∀ a, p a = true → f a = a) (l : List α) :
    (l.map f).filter p = l.filter p := by
  induction l with
  | nil => rfl
  | cons a rest ih =>
      simp only [List.map_cons, List.filter_cons, hp a]
      by_cases h : p a = true
      · simp only [if_pos h, hid a h, ih]
      · simp only [if_neg h, ih]

theorem mark_filter (jid : String) (l : List CronJob) :
    (l.map (fun k => if k.id == jid then {k with isExecuted := true} else k)).filter
      (fun k => !(k.id == jid))
    = l.filter (fun k => !(k.id == jid)) := by
  apply filter_map_same
  · intro a
    by_cases h : (a.id == jid) = true
    · simp [h]
    · simp [h]
  · intro a ha
    have : ¬(a.id == jid) = true := by
      intro hcon
      rw [hcon] at ha
      exact absurd ha (by decide)
    simp [this]

theorem inv_fireEnd (ok : Bool) (jid : String) (s : SchedulerState)
    (hInv : SchedulerInv s) : SchedulerInv (fireEnd ok jid s) := by
  unfold fireEnd
  split
  · refine inv_of_eq _ _ ?_ ?_ (inv_filter_out jid s hInv)
    · exact (mark_filter jid s.jobs).symm
    · rfl
  · exact hInv


theorem map_replaceJob_of_no_match (j : CronJob) (l : List CronJob)
    (h : ∀ k ∈ l, k.id ≠ j.id) : l.map (replaceJob j) = l := by
  induction l with
  | nil => rfl
  | cons k rest ih =>
      simp only [List.map_cons]
      rw [replaceJob_of_ne j k (h k (by simp)), ih (fun m hm => h m (by simp [hm]))]

theorem users_nodup_replace (j : CronJob) (l : List CronJob)
    (hids : (l.map (fun k => k.id)).Nodup)
    (husers : (l.map (fun k => k.userAddress)).Nodup)
    (hu : ∀ k ∈ l, k.userAddress ≠ j.userAddress) :
    ((l.map (replaceJob j)).map (fun k => k.userAddress)).Nodup := by
  induction l with
  | nil => simp
  | cons k rest ih =>
      simp only [List.map_cons, List.nodup_cons] at hids husers ⊢
      by_cases h : k.id = j.id
      · have hrepl : replaceJob j k = j := by unfold replaceJob; rw [if_pos (beq_iff_eq.mpr h)]
        have hrest : rest.map (replaceJob j) = rest := by
          apply map_replaceJob_of_no_match
          intro m hm he
          exact hids.1 (by rw [h, ← he]; exact List.mem_map_of_mem (fun k => k.id) hm)
        rw [hrepl, hrest]
        refine ⟨?_, husers.2⟩
        intro hmem
        obtain ⟨m, hm, hme⟩ := List.mem_map.mp hmem
        exact hu m (by simp [hm]) hme
      · have hrepl : replaceJob j k = k := replaceJob_of_ne j k h
        rw [hrepl]
        refine ⟨?_, ih hids.2 husers.2 (fun m hm => hu m (by simp [hm]))⟩
        intro hmem
        obtain ⟨m', hm', hme⟩ := List.mem_map.mp hmem
        obtain ⟨m, hm, hrm⟩ := List.mem_map.mp hm'
        by_cases hmid : m.id = j.id
        · have : m' = j := by rw [← hrm]; unfold replaceJob; rw [if_pos (beq_iff_eq.mpr hmid)]
          rw [this] at hme
          exact hu k (by simp) hme.symm
        · have : m' = m := by rw [← hrm]; exact replaceJob_of_ne j m hmid
          rw [this] at hme
          exact husers.1 (hme ▸ List.mem_map_of_mem (fun k => k.userAddress) hm)

theorem active_replace_eq (u : String) (j : CronJob) (l : List CronJob)
    (hids : (l.map (fun k => k.id)).Nodup)
    (hu : ∀ k ∈ l, k.userAddress ≠ u)
    (hju : j.userAddress = u) (hjx : j.isExecuted = false)
    (hmatch : ∃ k ∈ l, k.id = j.id) :
    (l.map (replaceJob j)).filter (fun k => k.userAddress == u && !k.isExecuted) = [j] := by
  induction l with
  | nil => simp at hmatch
  | cons k rest ih =>
      simp only [List.map_cons, List.nodup_cons] at hids ⊢
      by_cases h : k.id = j.id
      · have hrepl : replaceJob j k = j := by unfold replaceJob; rw [if_pos (beq_iff_eq.mpr h)]
        have hrest : rest.map (replaceJob j) = rest := by
          apply map_replaceJob_of_no_match
          intro m hm he
          exact hids.1 (by rw [h, ← he]; exact List.mem_map_of_mem (fun k => k.id) hm)
        have hpass : (j.userAddress == u && !j.isExecuted) = true := by
          simp [hju, hjx]
        rw [hrepl, hrest, List.filter_cons, if_pos hpass]
        have hnil : rest.filter (fun k => k.userAddress == u && !k.isExecuted) = [] := by
          rw [List.filter_eq_nil]
          intro m hm
          simp [hu m (by simp [hm])]
        rw [hnil]
      · have hrepl : replaceJob j k = k := replaceJob_of_ne j k h
        have hfail : ¬(k.userAddress == u && !k.isExecuted) = true := by
          simp [hu k (by simp)]
        rw [hrepl, List.filter_cons, if_neg hfail]
        have hmatch' : ∃ m ∈ rest, m.id = j.id := by
          obtain ⟨m, hm, hme⟩ := hmatch
          rcases List.mem_cons.mp hm with h1 | h1
          · exact absurd (h1 ▸ hme) h
          · exact ⟨m, h1, hme⟩
        exact ih hids.2 (fun m hm => hu m (by simp [hm])) hmatch'

theorem active_append_eq (u : String) (j : CronJob) (l : List CronJob)
    (hu : ∀ k ∈ l, k.userAddress ≠ u)
    (hju : j.userAddress = u) (hjx : j.isExecuted = false) :
    (l ++ [j]).filter (fun k => k.userAddress == u && !k.isExecuted) = [j] := by
  rw [List.filter_append]
  have hnil : l.filter (fun k => k.userAddress == u && !k.isExecuted) = [] := by
    rw [List.filter_eq_nil]
    intro m hm
    simp [hu m hm]
  rw [hnil]
  simp [hju, hjx]


theorem contains_iff_mem (l : List String) (a : String) : l.contains a = true ↔ a ∈ l := by
  simp [List.contains]

theorem schedule_effect (now t : Nat) (u : String) (s : SchedulerState)
    (hInv : SchedulerInv s) (hNone : getJobByUserAddress u s = none) :
    SchedulerInv (scheduleDeadHandCheck now u t s).1
    ∧ activeJobsFor u (scheduleDeadHandCheck now u t s).1
        = [⟨mkJobId u now, u, now + t * 1000, t, false⟩] := by
  obtain ⟨h1, h2, h3, h4, h5⟩ := hInv
  have hu := no_user_of_find_none u s h1 hNone
  unfold scheduleDeadHandCheck activeJobsFor setJob setTask
  simp only []
  by_cases hany : s.jobs.any (fun k => k.id == mkJobId u now) = true
  · -- Map.set replaces an existing entry with the same id
    rw [if_pos hany]
    obtain ⟨k0, hk0, hk0id⟩ := List.any_eq_true.mp hany
    have hk0id' : k0.id = mkJobId u now := beq_iff_eq.mp hk0id
    have htask : s.tasks.contains (mkJobId u now) = true :=
      (contains_iff_mem _ _).mpr (hk0id' ▸ h5 k0 hk0)
    rw [if_pos htask]
    set j : CronJob := ⟨mkJobId u now, u, now + t * 1000, t, false⟩ with hj
    have hjidof : ∀ k, (replaceJob j k).id = k.id := fun k => replaceJob_id j k
    refine ⟨⟨?_, ?_, ?_, ?_, ?_⟩, ?_⟩
    · intro m hm
      obtain ⟨m0, hm0, hrm⟩ := List.mem_map.mp hm
      by_cases hid : m0.id = j.id
      · rw [← hrm]
        unfold replaceJob
        rw [if_pos (beq_iff_eq.mpr hid)]
      · rw [← hrm, replaceJob_of_ne j m0 hid]
        exact h1 m0 hm0
    · have : (s.jobs.map (replaceJob j)).map (fun k => k.id) = s.jobs.map (fun k => k.id) := by
        rw [List.map_map]
        exact List.map_congr_left (fun k _ => hjidof k)
      rw [this]
      exact h2
    · exact users_nodup_replace j s.jobs h2 h3 (fun k hk => hu k hk)
    · intro tid htid
      obtain ⟨m, hm, hmid⟩ := h4 tid htid
      exact ⟨replaceJob j m, List.mem_map_of_mem _ hm, by rw [hjidof m]; exact hmid⟩
    · intro m hm
      obtain ⟨m0, hm0, hrm⟩ := List.mem_map.mp hm
      rw [← hrm, hjidof m0]
      exact h5 m0 hm0
    · exact active_replace_eq u j s.jobs h2 hu rfl rfl ⟨k0, hk0, hk0id'⟩
  · -- fresh id: Map.set appends
    rw [if_neg hany]
    have hnomem : mkJobId u now ∉ s.jobs.map (fun k => k.id) := by
      intro hmem
      obtain ⟨m, hm, hme⟩ := List.mem_map.mp hmem
      exact hany (List.any_eq_true.mpr ⟨m, hm, beq_iff_eq.mpr hme⟩)
    have htask : ¬s.tasks.contains (mkJobId u now) = true := by
      intro hc
      obtain ⟨m, hm, hmid⟩ := h4 _ ((contains_iff_mem _ _).mp hc)
      exact hnomem (hmid ▸ List.mem_map_of_mem (fun k => k.id) hm)
    rw [if_neg htask]
    refine ⟨⟨?_, ?_, ?_, ?_, ?_⟩, ?_⟩
    · intro m hm
      rcases List.mem_append.mp hm with h | h
      · exact h1 m h
      · simp at h
        rw [h]
    · rw [List.map_append]
      simp only [List.map_cons, List.map_nil]
      rw [List.nodup_append]
      exact ⟨h2, List.nodup_singleton _, by simpa using fun hmem => hnomem hmem⟩
    · rw [List.map_append]
      simp only [List.map_cons, List.map_nil]
      rw [List.nodup_append]
      refine ⟨h3, List.nodup_singleton _, ?_⟩
      simp only [List.disjoint_singleton]
      intro hmem
      obtain ⟨m, hm, hme⟩ := List.mem_map.mp hmem
      exact hu m hm hme
    · intro tid htid
      rcases List.mem_append.mp htid with h | h
      · obtain ⟨m, hm, hmid⟩ := h4 tid h
        exact ⟨m, List.mem_append_left _ hm, hmid⟩
      · simp at h
        exact ⟨⟨mkJobId u now, u, now + t * 1000, t, false⟩,
          List.mem_append_right _ (by simp), by rw [h]⟩
    · intro m hm
      rcases List.mem_append.mp hm with h | h
      · exact List.mem_append_left _ (h5 m h)
      · simp at h
        rw [h]
        exact List.mem_append_right _ (by simp)
    · exact active_append_eq u _ s.jobs hu rfl rfl


theorem reset_effect (now t : Nat) (u : String) (s : SchedulerState)
    (hInv : SchedulerInv s) :
    SchedulerInv (resetDeadHandTimer now u t s)
    ∧ activeJobsFor u (resetDeadHandTimer now u t s)
        = [⟨mkJobId u now, u, now + t * 1000, t, false⟩] := by
  unfold resetDeadHandTimer
  cases hfind : getJobByUserAddress u s with
  | none =>
      exact ⟨(schedule_effect now t u s hInv hfind).1, (schedule_effect now t u s hInv hfind).2⟩
  | some existing =>
      have hInv1 := inv_cancel existing.id s hInv
      have hmem : existing ∈ s.jobs := List.mem_of_find?_eq_some hfind
      have hpred := List.find?_some hfind
      have huser : existing.userAddress = u := by
        have := (Bool.and_eq_true _ _).mp hpred
        exact beq_iff_eq.mp this.1
      have hcont : s.tasks.contains existing.id = true :=
        (contains_iff_mem _ _).mpr (hInv.2.2.2.2 existing hmem)
      have hNone1 : getJobByUserAddress u (cancelDeadHandCheck existing.id s).1 = none := by
        unfold cancelDeadHandCheck
        rw [if_pos hcont]
        unfold getJobByUserAddress
        rw [List.find?_eq_none]
        intro m hm
        obtain ⟨hmm, hmne⟩ := List.mem_filter.mp hm
        intro hp
        have hmu : m.userAddress = u := by
          have := (Bool.and_eq_true _ _).mp hp
          exact beq_iff_eq.mp this.1
        have : m = existing :=
          List.inj_on_of_nodup_map hInv.2.2.1 hmm hmem (by rw [hmu, huser])
        rw [this] at hmne
        simp at hmne
      exact ⟨(schedule_effect now t u _ hInv1 hNone1).1,
             (schedule_effect now t u _ hInv1 hNone1).2⟩

theorem inv_initiate (now : Nat) (u : String) (deleg : Option Delegation)
    (s : SchedulerState) (hInv : SchedulerInv s) :
    SchedulerInv (initiateDeadHand now u deleg s).2 := by
  unfold initiateDeadHand
  split
  · exact hInv
  split
  · exact hInv
  cases deleg with
  | none => exact hInv
  | some d =>
      cases hfind : getJobByUserAddress u s with
      | some j => simp only []; exact hInv
      | none => exact (schedule_effect now d.timeout u s hInv hfind).1

theorem inv_step (e : SwitchEvent) (s : SchedulerState) (hInv : SchedulerInv s) :
    SchedulerInv (stepEvent e s) := by
  cases e with
  | armE now u deleg => exact inv_initiate now u deleg s hInv
  | cancelE jid => exact inv_cancel jid s hInv
  | fireStartE jid => exact inv_fireStart jid s hInv
  | fireEndE ok jid => exact inv_fireEnd ok jid s hInv
  | resetE now u t => exact (reset_effect now t u s hInv).1

theorem inv_runEvents (es : List SwitchEvent) (s : SchedulerState)
    (hInv : SchedulerInv s) : SchedulerInv (runEvents es s) := by
  induction es generalizing s with
  | nil => exact hInv
  | cons e rest ih => exact ih (stepEvent e s) (inv_step e s hInv)

theorem inv_empty : SchedulerInv emptyScheduler := by
  refine ⟨?_, ?_, ?_, ?_, ?_⟩ <;> simp [emptyScheduler]

theorem active_le_one_of_inv (s : SchedulerState) (hInv : SchedulerInv s)
    (u : String) : (activeJobsFor u s).length ≤ 1 :=
  active_filter_le_one u s.jobs hInv.2.2.1




/-! ## Lemmas about the sweep planner -/

theorem mem_emitForQuote (e : BalanceEntry) (q : BridgeQuote) (t : TransactionRequest)
    (ht : t ∈ emitForQuote e q) :
    (isGasToken e.token.address = false ∧ t = mkApprovalTx e q)
    ∨ (∃ tr, q.transactionRequest = some tr ∧ t = mkQuoteTx tr) := by
  unfold emitForQuote at ht
  rcases List.mem_append.mp ht with h | h
  · by_cases hg : isGasToken e.token.address = true
    · rw [if_pos hg] at h
      simp at h
    · rw [if_neg hg] at h
      simp at h
      exact Or.inl ⟨by simpa using hg, h⟩
  · cases htr : q.transactionRequest with
    | none =>
        rw [htr] at h
        simp at h
    | some tr =>
        rw [htr] at h
        simp at h
        exact Or.inr ⟨tr, rfl, h⟩

theorem mem_processTokenEntry (env : BalanceEntry → Option BridgeQuote)
    (e : BalanceEntry) (t : TransactionRequest) (ht : t ∈ processTokenEntry env e) :
    ∃ q, env e = some q ∧ t ∈ emitForQuote e q := by
  unfold processTokenEntry at ht
  split at ht
  · cases hq : env e with
    | none => rw [hq] at ht; simp at ht
    | some q => rw [hq] at ht; exact ⟨q, rfl, ht⟩
  split at ht
  · simp at ht
  split at ht
  · simp at ht
  · cases hq : env e with
    | none => rw [hq] at ht; simp at ht
    | some q => rw [hq] at ht; exact ⟨q, rfl, ht⟩

theorem plan_drop_empty_entry (env : BalanceEntry → Option BridgeQuote)
    (e : BalanceEntry) (h : processTokenEntry env e = [])
    (u b k : String) (bals1 bals2 : List BalanceEntry) :
    executeDeadHandSwitch u b k env (bals1 ++ e :: bals2)
      = executeDeadHandSwitch u b k env (bals1 ++ bals2) := by
  have h2 : planTransactions env (bals1 ++ e :: bals2)
      = planTransactions env (bals1 ++ bals2) := by
    simp [planTransactions, h]
  simp only [executeDeadHandSwitch, h2]

/-! ## Claim theorems for the pure string/value functions -/

/-- Claim C9: `determineActivityFromAIResponse` is a pure function in which
no-activity indicators take precedence: any input whose lowercasing contains a
no-activity substring yields `false` (even if activity substrings such as
`"transfer"` are also present); the empty string yields `false`; and an input
containing no indicator of either kind yields `false`. -/
theorem determineActivity_noActivity_precedence :
    (∀ s : String, (∃ pat ∈ noActivityIndicators, jsIncludes (jsToLower s) pat = true) →
      determineActivityFromAIResponse s = false)
  ∧ determineActivityFromAIResponse "" = false
  ∧ (∀ s : String,
      (∀ pat ∈ noActivityIndicators ++ activityIndicators,
        jsIncludes (jsToLower s) pat = false) →
      determineActivityFromAIResponse s = false) := by
  refine ⟨?_, by decide, ?_⟩
  · rintro s ⟨pat, hmem, hinc⟩
    have h1 : noActivityIndicators.any (fun pat => jsIncludes (jsToLower s) pat) = true :=
      List.any_eq_true.mpr ⟨pat, hmem, hinc⟩
    simp [determineActivityFromAIResponse, h1]
  · intro s h
    have h1 : noActivityIndicators.any (fun pat => jsIncludes (jsToLower s) pat) = false :=
      List.any_eq_false.mpr fun pat hp => by
        simp [h pat (List.mem_append_left _ hp)]
    have h2 : activityIndicators.any (fun pat => jsIncludes (jsToLower s) pat) = false :=
      List.any_eq_false.mpr fun pat hp => by
        simp [h pat (List.mem_append_right _ hp)]
    simp [determineActivityFromAIResponse, h1, h2]

/-- Witness for C9: concrete inputs.  `"no transfer data; transfers received
and sent"` contains a no-activity indicator together with several activity
indicators and classifies as `false`; `"hello"` contains no indicator at all
and classifies as `false`. -/
theorem determineActivity_noActivity_precedence_witness :
    determineActivityFromAIResponse "no transfer data; transfers received and sent" = false
    ∧ determineActivityFromAIResponse "hello" = false :=
  ⟨determineActivity_noActivity_precedence.1 _ ⟨"no transfer", by decide, by decide⟩,
   determineActivity_noActivity_precedence.2.2 _ (by decide)⟩

/-- Claim C10: `serializeBigInts` is structure-preserving and idempotent: it
replaces every `bigint` at any depth by its decimal string (so its image
contains no `bigint`), maps arrays element-wise and objects entry-wise with
all keys preserved, leaves `null`, `undefined`, strings, numbers and booleans
unchanged, and applying it twice equals applying it once. -/
theorem serializeBigInts_structure_preserving_idem :
    (∀ v, serializeBigInts (serializeBigInts v) = serializeBigInts v)
  ∧ (∀ v, noBigInt (serializeBigInts v) = true)
  ∧ (∀ n : Int, serializeBigInts (.jsBigInt n) = .jsStr (toString n))
  ∧ (∀ l, serializeBigInts (.jsArr l) = .jsArr (l.map serializeBigInts))
  ∧ (∀ kvs, serializeBigInts (.jsObj kvs) = .jsObj (kvs.map fun p => (p.1, serializeBigInts p.2)))
  ∧ (∀ kvs, keysOf (serializeBigInts (.jsObj kvs)) = keysOf (.jsObj kvs))
  ∧ serializeBigInts .jsNull = .jsNull
  ∧ serializeBigInts .jsUndefined = .jsUndefined
  ∧ (∀ s, serializeBigInts (.jsStr s) = .jsStr s)
  ∧ (∀ n : Int, serializeBigInts (.jsNum n) = .jsNum n)
  ∧ (∀ b, serializeBigInts (.jsBool b) = .jsBool b) := by
  refine ⟨serializeBigInts_idem, noBigInt_serialize, fun n => rfl,
    fun l => by rw [serializeBigInts, serializeArray_eq_map],
    fun kvs => by rw [serializeBigInts, serializeEntries_eq_map],
    fun kvs => by simp [serializeBigInts, serializeEntries_eq_map, keysOf],
    rfl, rfl, fun s => rfl, fun n => rfl, fun b => rfl⟩

/-- Claim C4: whenever the blockchain-activity query returns a response, the
oracle's decision is the disjunction of its two sources:
`activityFound = onchainFound OR socialFound`, where `onchainFound` classifies
the AI reasoning and `socialFound` is the (error-absorbing) Hypergraph Twitter
check — so evidence from either source alone yields `activityFound = true`. -/
theorem executeDeadHandCheck_found_is_disjunction
    (u : String) (t : Nat) (r : McpResult) (social : Nat → Except String Bool) :
    (executeDeadHandCheck u t (.ok r) social).activityFound
      = (determineActivityFromAIResponse r.reasoning
          || checkTwitterActivityFromHypergraph t social) := rfl

/-- Claim C5, counterexample: the claim says a failing collaborator source is
resolved to `found = false` (with the cycle still completing), which together
with the disjunction rule would let the *other* source still yield
`found = true`.  But when the blockchain query throws, the catch block returns
`activityFound = false` before the Twitter check ever runs: here the social
source reports activity (`checkTwitterActivityFromHypergraph` returns `true`),
yet the check returns `false` and the cycle ends in `switchTriggered`, not in
a timer reset. -/
theorem executeDeadHandCheck_mcpError_discards_social :
    checkTwitterActivityFromHypergraph 60 (fun _ => .ok true) = true
    ∧ (executeDeadHandCheck "0xaaaaaaaaaaaaaaaaaaaaaaaaaaaaaaaaaaaaaaaa" 60
        (.error "network timeout") (fun _ => .ok true)).activityFound = false
    ∧ handleDeadHandCheck "0xaaaaaaaaaaaaaaaaaaaaaaaaaaaaaaaaaaaaaaaa"
        (some ⟨"0xbbbbbbbbbbbbbbbbbbbbbbbbbbbbbbbbbbbbbbbb", "0xkernel", 60⟩)
        (.error "network timeout") (fun _ => .ok true) = .switchTriggered :=
  ⟨rfl, rfl, rfl⟩

/-- Claim C5, amended: a social-activity query failure is resolved to
`socialFound = false` while the blockchain result still decides the check; a
blockchain-query failure resolves the *whole* check to
`activityFound = false`, discarding the social source; in both cases no error
propagates out of the check, and with a delegation present the cycle always
ends in a timer reset or a switch trigger. -/
theorem executeDeadHandCheck_failure_policy
    (u : String) (t : Nat) (e : String) (r : McpResult)
    (socialErr : Nat → String) (social : Nat → Except String Bool)
    (mcp : Except String McpResult) (d : Delegation) :
    checkTwitterActivityFromHypergraph t (fun h => .error (socialErr h)) = false
    ∧ (executeDeadHandCheck u t (.ok r) (fun h => .error (socialErr h))).activityFound
        = determineActivityFromAIResponse r.reasoning
    ∧ (executeDeadHandCheck u t (.error e) social).activityFound = false
    ∧ (handleDeadHandCheck u (some d) mcp social = .timerReset
        ∨ handleDeadHandCheck u (some d) mcp social = .switchTriggered) := by
  refine ⟨rfl, by simp [executeDeadHandCheck, checkTwitterActivityFromHypergraph], rfl, ?_⟩
  by_cases h : (executeDeadHandCheck u d.timeout mcp social).activityFound
  · exact Or.inl (by simp [handleDeadHandCheck, h])
  · exact Or.inr (by simp [handleDeadHandCheck, h])

/-- Claim C1: at most one non-consumed scheduled check exists per user at any
time.  An arm call (valid address, delegation present) for a user with an
active job is rejected with the 409 `AlreadyArmed` response and returns the
state unchanged; otherwise it answers `scheduled` and installs exactly one
active job for that user; the scheduler invariant is preserved by every
event-loop operation, holds in every state reachable from a fresh scheduler,
and bounds the number of active jobs of any user by one. -/
theorem arm_at_most_one_active_job :
    (∀ (now : Nat) (u : String) (d : Delegation) (s : SchedulerState) (j : CronJob),
        isValidEthAddress u = true →
        getJobByUserAddress u s = some j →
        initiateDeadHand now u (some d) s = (.alreadyArmed, s))
  ∧ (∀ (now : Nat) (u : String) (d : Delegation) (s : SchedulerState),
        SchedulerInv s → isValidEthAddress u = true →
        getJobByUserAddress u s = none →
        (initiateDeadHand now u (some d) s).1 = .scheduled (mkJobId u now)
        ∧ SchedulerInv (initiateDeadHand now u (some d) s).2
        ∧ (activeJobsFor u (initiateDeadHand now u (some d) s).2).length = 1)
  ∧ (∀ (e : SwitchEvent) (s : SchedulerState), SchedulerInv s → SchedulerInv (stepEvent e s))
  ∧ (∀ (s : SchedulerState), SchedulerInv s → ∀ u, (activeJobsFor u s).length ≤ 1)
  ∧ (∀ es : List SwitchEvent, SchedulerInv (runEvents es emptyScheduler)) := by
  have hval_ne : ∀ u : String, isValidEthAddress u = true → (u == "") = false := by
    intro u hval
    cases hemp : u == "" with
    | false => rfl
    | true =>
        have h : u = "" := by simpa using hemp
        rw [h] at hval
        exact absurd hval (by decide)
  refine ⟨?_, ?_, inv_step, active_le_one_of_inv, fun es => inv_runEvents es _ inv_empty⟩
  · intro now u d s j hval hfind
    simp [initiateDeadHand, hval_ne u hval, hval, hfind]
  · intro now u d s hInv hval hfind
    have heq : initiateDeadHand now u (some d) s
        = (.scheduled (scheduleDeadHandCheck now u d.timeout s).2,
           (scheduleDeadHandCheck now u d.timeout s).1) := by
      simp [initiateDeadHand, hval_ne u hval, hval, hfind]
    rw [heq]
    refine ⟨rfl, (schedule_effect now d.timeout u s hInv hfind).1, ?_⟩
    rw [(schedule_effect now d.timeout u s hInv hfind).2]
    rfl

theorem arm_at_most_one_active_job_witness :
    initiateDeadHand 5 sampleUser (some sampleDelegation) sampleArmed = (.alreadyArmed, sampleArmed)
  ∧ (initiateDeadHand 0 sampleUser (some sampleDelegation) emptyScheduler).1
      = .scheduled (mkJobId sampleUser 0)
  ∧ (activeJobsFor sampleUser
      (initiateDeadHand 0 sampleUser (some sampleDelegation) emptyScheduler).2).length = 1
  ∧ SchedulerInv (stepEvent (.fireStartE (mkJobId sampleUser 0)) sampleArmed)
  ∧ (activeJobsFor sampleUser sampleArmed).length ≤ 1 :=
  ⟨arm_at_most_one_active_job.1 5 sampleUser sampleDelegation sampleArmed sampleJob
      (by decide) (by decide),
   (arm_at_most_one_active_job.2.1 0 sampleUser sampleDelegation emptyScheduler
      (by decide) (by decide) (by decide)).1,
   (arm_at_most_one_active_job.2.1 0 sampleUser sampleDelegation emptyScheduler
      (by decide) (by decide) (by decide)).2.2,
   arm_at_most_one_active_job.2.2.1 (.fireStartE (mkJobId sampleUser 0)) sampleArmed (by decide),
   arm_at_most_one_active_job.2.2.2.1 sampleArmed (by decide) sampleUser⟩


/-- Claim C3, counterexample: the claim says the job is marked consumed
*before* the `onFire` callback runs.  In the source the handler is
`await callback(...)` *then* `job.isExecuted = true; cleanupJob(...)`: in the
state where the callback of the fired job is running (`firing` contains the
id), the job is still stored with `isExecuted = false` — not consumed. -/
theorem fire_consumes_after_callback_counterexample :
    (mkJobId sampleUser 0) ∈ (fireStart (mkJobId sampleUser 0) sampleArmed).firing
    ∧ getJob (mkJobId sampleUser 0) (fireStart (mkJobId sampleUser 0) sampleArmed)
        = some sampleJob
    ∧ sampleJob.isExecuted = false := by decide

/-- Claim C3, amended: the job is marked consumed immediately *after* the
`onFire` callback completes, not before.  An exception thrown by the callback
is caught and logged and leads to the identical state transition as normal
completion (`fireEnd true` = `fireEnd false`, so the timing facility
survives), and once the fire's handler tail has run no job with that id —
consumed or not — remains stored. -/
theorem fireEnd_consumes_regardless (jid : String) (s : SchedulerState) :
    fireEnd true jid s = fireEnd false jid s
    ∧ (s.firing.contains jid = true → getJob jid (fireEnd true jid s) = none) := by
  refine ⟨rfl, ?_⟩
  intro h
  unfold fireEnd
  rw [if_pos h]
  unfold cleanupJob getJob
  simp only []
  rw [List.find?_eq_none]
  intro m hm
  have := List.of_mem_filter hm
  simpa using this

theorem fireEnd_consumes_regardless_witness :
    fireEnd true (mkJobId sampleUser 0) (fireStart (mkJobId sampleUser 0) sampleArmed)
      = fireEnd false (mkJobId sampleUser 0) (fireStart (mkJobId sampleUser 0) sampleArmed)
    ∧ getJob (mkJobId sampleUser 0)
        (fireEnd true (mkJobId sampleUser 0) (fireStart (mkJobId sampleUser 0) sampleArmed))
        = none :=
  ⟨(fireEnd_consumes_regardless (mkJobId sampleUser 0)
      (fireStart (mkJobId sampleUser 0) sampleArmed)).1,
   (fireEnd_consumes_regardless (mkJobId sampleUser 0)
      (fireStart (mkJobId sampleUser 0) sampleArmed)).2 (by decide)⟩

/-- Claim C2, counterexample: "exactly one of fire and cancel succeeds in
consuming a job" fails in the callback window.  Concretely: the timer of an
armed job fires and its callback starts; a cancel issued now (the timer entry
is still in the map, since cleanup happens only after the awaited callback)
returns `true` — yet the callback is still in flight after the cancel and its
tail still runs to completion.  Both the cancel and the fire "win". -/
theorem cancel_during_fire_counterexample :
    (mkJobId sampleUser 0) ∈ (fireStart (mkJobId sampleUser 0) sampleArmed).firing
    ∧ (cancelDeadHandCheck (mkJobId sampleUser 0)
        (fireStart (mkJobId sampleUser 0) sampleArmed)).2 = true
    ∧ (mkJobId sampleUser 0) ∈ ((cancelDeadHandCheck (mkJobId sampleUser 0)
        (fireStart (mkJobId sampleUser 0) sampleArmed)).1).firing
    ∧ (fireEnd true (mkJobId sampleUser 0) (cancelDeadHandCheck (mkJobId sampleUser 0)
        (fireStart (mkJobId sampleUser 0) sampleArmed)).1).firing = [] := by decide

/-- Claim C2, amended: outside the callback window, first event wins exactly
as claimed — a cancel issued after a fire's handler has completed returns
`false` (while that callback ran to completion), a successful cancel of a
pending job prevents its timer from ever starting the callback, and a second
cancel of the same job returns `false`.  Only a cancel issued *during* the
fire's callback (see the counterexample) lets both operations succeed. -/
theorem cancel_after_fire_first_event_wins :
    (∀ (ok : Bool) (jid : String) (s : SchedulerState), s.firing.contains jid = true →
        (cancelDeadHandCheck jid (fireEnd ok jid s)).2 = false)
  ∧ (∀ (jid : String) (s : SchedulerState), (cancelDeadHandCheck jid s).2 = true →
        stepEvent (.fireStartE jid) (cancelDeadHandCheck jid s).1 = (cancelDeadHandCheck jid s).1)
  ∧ (∀ (jid : String) (s : SchedulerState),
        (cancelDeadHandCheck jid (cancelDeadHandCheck jid s).1).2 = false) := by
  have hfiltercont : ∀ (l : List String) (jid : String),
      (l.filter (fun t => !(t == jid))).contains jid = false := by
    intro l jid
    cases hc : (l.filter (fun t => !(t == jid))).contains jid with
    | false => rfl
    | true =>
        have hmem := (contains_iff_mem _ _).mp hc
        have := List.of_mem_filter hmem
        simp at this
  refine ⟨?_, ?_, ?_⟩
  · intro ok jid s h
    cases ok <;>
      · unfold fireEnd
        rw [if_pos h]
        unfold cleanupJob cancelDeadHandCheck
        simp only []
        rw [if_neg]
        rw [hfiltercont]
        simp
  · intro jid s h
    have hcont : s.tasks.contains jid = true := by
      by_contra hc
      unfold cancelDeadHandCheck at h
      rw [if_neg hc] at h
      simp at h
    unfold cancelDeadHandCheck
    rw [if_pos hcont]
    simp only [stepEvent]
    unfold fireStart
    rw [if_neg]
    rw [hfiltercont]
    simp
  · intro jid s
    unfold cancelDeadHandCheck
    by_cases hc : s.tasks.contains jid = true
    · rw [if_pos hc]
      simp only []
      rw [if_neg]
      rw [hfiltercont]
      simp
    · rw [if_neg hc, if_neg hc]

theorem cancel_after_fire_first_event_wins_witness :
    (cancelDeadHandCheck (mkJobId sampleUser 0)
      (fireEnd true (mkJobId sampleUser 0)
        (fireStart (mkJobId sampleUser 0) sampleArmed))).2 = false
    ∧ stepEvent (.fireStartE (mkJobId sampleUser 0))
        (cancelDeadHandCheck (mkJobId sampleUser 0) sampleArmed).1
        = (cancelDeadHandCheck (mkJobId sampleUser 0) sampleArmed).1
    ∧ (cancelDeadHandCheck (mkJobId sampleUser 0)
        (cancelDeadHandCheck (mkJobId sampleUser 0) sampleArmed).1).2 = false :=
  ⟨cancel_after_fire_first_event_wins.1 true (mkJobId sampleUser 0)
      (fireStart (mkJobId sampleUser 0) sampleArmed) (by decide),
   cancel_after_fire_first_event_wins.2.1 (mkJobId sampleUser 0) sampleArmed (by decide),
   cancel_after_fire_first_event_wins.2.2 (mkJobId sampleUser 0) sampleArmed⟩



/-- Claim C6: the planner never emits an ERC-20 approval for a token on the
native gas-token allow-list, in any letter case.  Every transaction of a plan
is either a quote pass-through (the swap/bridge intent appended from
`quote.transactionRequest`) or an approval `mkApprovalTx e q` for a balance
entry whose address fails the (lowercasing) `isGasToken` check — so no
planner-made approval ever targets the zero address, the `0xeeee…` sentinel
or the MATIC precompile; moreover `isGasToken` only depends on the lowercased
address (any letter casing of a listed address is accepted, e.g. the
mixed-case sentinel). -/
theorem plan_no_gas_token_approvals :
    (∀ (env : BalanceEntry → Option BridgeQuote) (balances : List BalanceEntry)
        (t : TransactionRequest), t ∈ planTransactions env balances →
        (∃ e ∈ balances, ∃ q, env e = some q
            ∧ ∃ tr, q.transactionRequest = some tr ∧ t = mkQuoteTx tr)
        ∨ (∃ e ∈ balances, ∃ q, env e = some q
            ∧ isGasToken e.token.address = false ∧ t = mkApprovalTx e q
            ∧ t.toAddr = e.token.address))
  ∧ (∀ a b : String, jsToLower a = jsToLower b → isGasToken a = isGasToken b)
  ∧ isGasToken gasSentinelMixedCase = true := by
  refine ⟨?_, ?_, by decide⟩
  · intro env balances t ht
    rw [planTransactions] at ht
    obtain ⟨e, he, hmem⟩ := List.mem_flatMap.mp ht
    obtain ⟨q, hq, hemit⟩ := mem_processTokenEntry env e t hmem
    rcases mem_emitForQuote e q t hemit with ⟨hg, happ⟩ | ⟨tr, htr, hquote⟩
    · exact Or.inr ⟨e, he, q, hq, hg, happ, by rw [happ]; rfl⟩
    · exact Or.inl ⟨e, he, q, hq, tr, htr, hquote⟩
  · intro a b h
    unfold isGasToken
    rw [h]

/-- Witness for C6, at a concrete plan: the approval transaction the planner
emits for a DAI balance is in the plan, and the characterization applies to
it. -/
theorem plan_no_gas_token_approvals_witness :
    (∃ e ∈ [sampleEntry], ∃ q, sampleEnv e = some q
        ∧ ∃ tr, q.transactionRequest = some tr
        ∧ mkApprovalTx sampleEntry sampleQuote = mkQuoteTx tr)
    ∨ (∃ e ∈ [sampleEntry], ∃ q, sampleEnv e = some q
        ∧ isGasToken e.token.address = false
        ∧ mkApprovalTx sampleEntry sampleQuote = mkApprovalTx e q
        ∧ (mkApprovalTx sampleEntry sampleQuote).toAddr = e.token.address) :=
  plan_no_gas_token_approvals.1 sampleEnv [sampleEntry]
    (mkApprovalTx sampleEntry sampleQuote) (by decide)

/-- Claim C7, counterexample: the claim requires a balance that already equals
the target asset on the target chain to be *recorded in the plan's skipped
list*, but the code's plan records nothing: the result type
(`DeadHandSwitchResult` / `TransactionResult[]`) has no skipped list, and the
plan produced from only the target-token balance is *identical* to the plan
produced from no balances at all — no trace of the skipped token exists. -/
theorem target_token_unrecorded_counterexample :
    executeDeadHandSwitch sampleUser sampleDelegation.beneficiaryAddress
        sampleDelegation.kernelClient sampleEnv [sampleEntryTarget]
      = executeDeadHandSwitch sampleUser sampleDelegation.beneficiaryAddress
          sampleDelegation.kernelClient sampleEnv []
    ∧ executeDeadHandSwitch sampleUser sampleDelegation.beneficiaryAddress
        sampleDelegation.kernelClient sampleEnv [sampleEntryTarget]
      = .completed [] := by decide

/-- Claim C7, amended: a balance entry on the target chain whose token address
equals the target asset's address (case-insensitively) contributes no
transaction to the plan, and the whole plan is unchanged by its presence —
the token is skipped, but recorded only in a log line, not in any field of
the result. -/
theorem target_token_skipped_no_intent
    (env : BalanceEntry → Option BridgeQuote) (e : BalanceEntry)
    (hchain : e.chainId = 42161)
    (haddr : jsToLower e.token.address = jsToLower getTargetToken.address) :
    processTokenEntry env e = []
    ∧ (∀ u b k : String, ∀ bals1 bals2 : List BalanceEntry,
        executeDeadHandSwitch u b k env (bals1 ++ e :: bals2)
          = executeDeadHandSwitch u b k env (bals1 ++ bals2)) := by
  have h1 : processTokenEntry env e = [] := by
    unfold processTokenEntry
    rw [if_neg (by rw [hchain]; decide), if_neg (by rw [hchain]; simp), if_pos haddr]
  exact ⟨h1, fun u b k bals1 bals2 => plan_drop_empty_entry env e h1 u b k bals1 bals2⟩

/-- Witness for C7 at the concrete target-token balance. -/
theorem target_token_skipped_no_intent_witness :
    processTokenEntry sampleEnv sampleEntryTarget = []
    ∧ executeDeadHandSwitch sampleUser sampleDelegation.beneficiaryAddress
        sampleDelegation.kernelClient sampleEnv ([sampleEntry] ++ sampleEntryTarget :: [])
      = executeDeadHandSwitch sampleUser sampleDelegation.beneficiaryAddress
          sampleDelegation.kernelClient sampleEnv ([sampleEntry] ++ []) :=
  ⟨(target_token_skipped_no_intent sampleEnv sampleEntryTarget (by decide) (by decide)).1,
   (target_token_skipped_no_intent sampleEnv sampleEntryTarget (by decide) (by decide)).2
     sampleUser sampleDelegation.beneficiaryAddress sampleDelegation.kernelClient
     [sampleEntry] []⟩

/-- Claim C8, counterexample: the claim requires a `(token, reason)` record in
the plan's failed list when the quote collaborator fails for a token, but the
code records nothing: with three balances of which the middle one has no
quote, the plan is *identical* to the plan over the two routable balances
(and it does return successfully, with the four transactions for the other
two tokens) — no failure record exists anywhere in the result. -/
theorem failed_token_unrecorded_counterexample :
    executeDeadHandSwitch sampleUser sampleDelegation.beneficiaryAddress
        sampleDelegation.kernelClient sampleEnvFail
        [sampleEntry, sampleEntryFail, sampleEntryArb]
      = executeDeadHandSwitch sampleUser sampleDelegation.beneficiaryAddress
          sampleDelegation.kernelClient sampleEnvFail [sampleEntry, sampleEntryArb]
    ∧ (planTransactions sampleEnvFail [sampleEntry, sampleEntryFail, sampleEntryArb]).length = 4
    ∧ sampleEnvFail sampleEntryFail = none := by decide

/-- Claim C8, amended: a failing quote request for one token never aborts the
plan — that token contributes no transaction, processing continues, and the
plan still contains exactly the intents of the other tokens; but the failure
is recorded only in a log line, not in any failed list of the result. -/
theorem failed_quote_skipped_continues
    (env : BalanceEntry → Option BridgeQuote) (e : BalanceEntry)
    (hfail : env e = none) :
    processTokenEntry env e = []
    ∧ (∀ u b k : String, ∀ bals1 bals2 : List BalanceEntry,
        executeDeadHandSwitch u b k env (bals1 ++ e :: bals2)
          = executeDeadHandSwitch u b k env (bals1 ++ bals2)) := by
  have h1 : processTokenEntry env e = [] := by
    unfold processTokenEntry
    split
    · rw [hfail]
    split
    · rfl
    split
    · rfl
    · rw [hfail]
  exact ⟨h1, fun u b k bals1 bals2 => plan_drop_empty_entry env e h1 u b k bals1 bals2⟩

/-- Witness for C8 at the concrete failing balance. -/
theorem failed_quote_skipped_continues_witness :
    processTokenEntry sampleEnvFail sampleEntryFail = []
    ∧ executeDeadHandSwitch sampleUser sampleDelegation.beneficiaryAddress
        sampleDelegation.kernelClient sampleEnvFail
        ([sampleEntry] ++ sampleEntryFail :: [sampleEntryArb])
      = executeDeadHandSwitch sampleUser sampleDelegation.beneficiaryAddress
          sampleDelegation.kernelClient sampleEnvFail ([sampleEntry] ++ [sampleEntryArb]) :=
  ⟨(failed_quote_skipped_continues sampleEnvFail sampleEntryFail (by decide)).1,
   (failed_quote_skipped_continues sampleEnvFail sampleEntryFail (by decide)).2
     sampleUser sampleDelegation.beneficiaryAddress sampleDelegation.kernelClient
     [sampleEntry] [sampleEntryArb]⟩

end IgrisDeadHand
